import Mathlib

/-!
Verification of the Jalali/Gregorian calendar conversion core of the
admin-panel repository (src/pages/SalesReport.tsx, src/services/api.ts).

The TypeScript source is shallowly embedded:
  * JavaScript `(a / b) | 0` is truncation toward zero followed by the
    ECMAScript `ToInt32` reduction into the signed 32-bit range:
    `toInt32 (Int.tdiv a b)`. JavaScript `%` is the remainder with the
    dividend's sign, `Int.tmod`. Sums and remainders are not wrapped: they
    are IEEE doubles in the source and every one reached on the stated
    domains stays far below 2^53, where double arithmetic is exact (and
    each truncated quotient is at least 1/b away from the nearest other
    integer while the division error is below half an ulp, so the
    truncation of the double quotient equals `Int.tdiv`).
  * The spec's reference algorithm (spec section 4.1) prescribes floor
    division; it is embedded separately with `Int.fdiv` / `Int.fmod`.
  * Strings are `String` / `List Char`; the anchored regular expression of
    the parser is embedded as a deterministic matcher (backtracking of the
    greedy `\d{1,2}` groups can never succeed, because the only shorter
    alternative would require the following character to be a separator or
    the end of input while it is known to be a digit).

A parallel ℕ model of the converter is used for proofs; cast lemmas link
it to the faithful ℤ embedding on the domain where the code's arithmetic
stays non-negative (Jalali year at least 979).
-/

/-! ## Parser embedding (parseJalaliDateString, SalesReport.tsx lines 57-67) -/

/-- Embedding of `s.replace(/[۰-۹]/g, d => String(indexOf(d)))`:
each Persian-script digit U+06F0..U+06F9 is replaced by the Latin digit of
the same value, every other character is unchanged. -/
def normalizeChar (c : Char) : Char :=
  if c = '۰' then '0' else if c = '۱' then '1' else if c = '۲' then '2'
  else if c = '۳' then '3' else if c = '۴' then '4' else if c = '۵' then '5'
  else if c = '۶' then '6' else if c = '۷' then '7' else if c = '۸' then '8'
  else if c = '۹' then '9' else c

/-- The JavaScript `String.prototype.trim` whitespace class (WhiteSpace and
LineTerminator code points). -/
def isJsWhitespace (c : Char) : Bool :=
  c.toNat = 0x9 ∨ c.toNat = 0xA ∨ c.toNat = 0xB ∨ c.toNat = 0xC ∨ c.toNat = 0xD ∨
  c.toNat = 0x20 ∨ c.toNat = 0xA0 ∨ c.toNat = 0x1680 ∨
  (0x2000 ≤ c.toNat ∧ c.toNat ≤ 0x200A) ∨ c.toNat = 0x2028 ∨ c.toNat = 0x2029 ∨
  c.toNat = 0x202F ∨ c.toNat = 0x205F ∨ c.toNat = 0x3000 ∨ c.toNat = 0xFEFF

/-- Embedding of `String.prototype.trim`. -/
def jsTrim (cs : List Char) : List Char :=
  ((cs.dropWhile isJsWhitespace).reverse.dropWhile isJsWhitespace).reverse

/-- The regex class `\d` (without the `u` flag): exactly the Latin digits. -/
def isLatinDigit (c : Char) : Bool := '0' ≤ c ∧ c ≤ '9'

/-- The separator alternative `(?:\/|-)` of the pattern. -/
def isSep (c : Char) : Bool := c = '/' ∨ c = '-'

/-- Numeric value of a digit character. -/
def digitVal (c : Char) : ℕ := c.toNat - '0'.toNat

/-- Base-10 value of a digit string, as computed by `parseInt(_, 10)` on a
string of Latin digits. -/
def digitsToNat (cs : List Char) : ℕ := cs.foldl (fun a c => 10 * a + digitVal c) 0

/-- One `(\d{1,2})` group: greedily take two digits if available, else one.
Backtracking to the shorter alternative can never help, because the
character after a single-digit match would have to be a separator or the
end of the string, yet it is a digit. -/
def matchField : List Char → Option (List Char × List Char)
  | [] => none
  | [c1] => if isLatinDigit c1 then some ([c1], []) else none
  | c1 :: c2 :: rest =>
    if isLatinDigit c1 then
      if isLatinDigit c2 then some ([c1, c2], rest) else some ([c1], c2 :: rest)
    else none

/-- The anchored pattern `^(\d{4})(?:\/|-)(\d{1,2})(?:\/|-)(\d{1,2})$`,
returning the three capture groups. -/
def matchJalali : List Char → Option (List Char × List Char × List Char)
  | c1 :: c2 :: c3 :: c4 :: s1 :: rest =>
    if isLatinDigit c1 && isLatinDigit c2 && isLatinDigit c3 && isLatinDigit c4 && isSep s1 then
      match matchField rest with
      | some (g2, s2 :: rest2) =>
        if isSep s2 then
          match matchField rest2 with
          | some (g3, []) => some ([c1, c2, c3, c4], g2, g3)
          | _ => none
        else none
      | _ => none
    else none
  | _ => none

/-- Embedding of `parseJalaliDateString` (SalesReport.tsx lines 57-67):
normalize Persian digits, trim, match the anchored pattern, parse the three
integers and range-check month and day. -/
def parseJalaliDateString (s : String) : Option (ℕ × ℕ × ℕ) :=
  let normalized := jsTrim ((s.data).map normalizeChar)
  match matchJalali normalized with
  | none => none
  | some (g1, g2, g3) =>
    let jy := digitsToNat g1
    let jm := digitsToNat g2
    let jd := digitsToNat g3
    if jm < 1 ∨ jm > 12 ∨ jd < 1 ∨ jd > 31 then none else some (jy, jm, jd)

/-! ## Converter embedding (jalaliToGregorian, SalesReport.tsx lines 14-55) -/

/-- The ECMAScript `ToInt32` conversion of an integer value: reduce
modulo 2^32 into the signed range [-2^31, 2^31). -/
def toInt32 (x : ℤ) : ℤ := (x + 2147483648) % 4294967296 - 2147483648

/-- Embedding of `function div(a, b) { return (a / b) | 0; }`: JavaScript
division truncated toward zero by `| 0`, which also wraps the quotient
into the signed 32-bit range. -/
def div (a b : ℤ) : ℤ := toInt32 (Int.tdiv a b)

/-- JavaScript `%`: remainder carrying the dividend's sign. -/
def jsMod (a b : ℤ) : ℤ := Int.tmod a b

/-- The loop `for (let i = 0; i < jm; ++i) j_day_no += (i < 6) ? 31 : 30;`
summed over `k` iterations. -/
def jMonthSumZ : ℕ → ℤ
  | 0 => 0
  | i + 1 => jMonthSumZ i + (if i < 6 then 31 else 30)

/-- The month-length table `[31, leap ? 29 : 28, 31, 30, ...]` (line 47). -/
def gdMonthDaysZ (leap : Bool) : List ℤ :=
  [31, if leap then 29 else 28, 31, 30, 31, 30, 31, 31, 30, 31, 30, 31]

/-- The loop `while (gm < 12 && g_day_no >= gdMonthDays[gm])` (lines 48-52):
returns the number of consumed months and the remaining day count. -/
def monthWalkZ : List ℤ → ℤ → ℕ × ℤ
  | [], g => (0, g)
  | d :: ds, g =>
    if g ≥ d then ((monthWalkZ ds (g - d)).1 + 1, (monthWalkZ ds (g - d)).2)
    else (0, g)

/-- The century-leap block of lines 29-35: fires when the remaining day
count is at least 36525. -/
def centuryZ (gy g : ℤ) : ℤ × ℤ × Bool :=
  if g ≥ 36525 then
    let g1 := g - 1
    let gy1 := gy + 100 * div g1 36524
    let g2 := jsMod g1 36524
    if g2 ≥ 365 then (gy1, g2 + 1, true) else (gy1, g2, false)
  else (gy, g, true)

/-- The final single-year correction of lines 40-45. -/
def yearStepZ (gy g : ℤ) (leap : Bool) : ℤ × ℤ × Bool :=
  if g ≥ 366 then (gy + div (g - 1) 365, jsMod (g - 1) 365, false) else (gy, g, leap)

/-- Lines 24-54: decode a Gregorian day number into (year, month, day). -/
def gregOfDayNoZ (g0 : ℤ) : ℤ × ℤ × ℤ :=
  let gy0 := 1600 + 400 * div g0 146097
  let g1 := jsMod g0 146097
  let c := centuryZ gy0 g1
  let y := yearStepZ (c.1 + 4 * div c.2.1 1461) (jsMod c.2.1 1461) c.2.2
  let w := monthWalkZ (gdMonthDaysZ y.2.2) y.2.1
  (y.1, (w.1 : ℤ) + 1, w.2 + 1)

/-- Line 20: `365 * jy + div(jy, 33) * 8 + div((jy % 33) + 3, 4)`. -/
def jDayCountZ (jy : ℤ) : ℤ := 365 * jy + div jy 33 * 8 + div (jsMod jy 33 + 3) 4

/-- Embedding of `jalaliToGregorian` (lines 15-55). The month loop runs
`max(jm - 1, 0)` times, hence the `Int.toNat`. -/
def jalaliToGregorian (jy0 jm0 jd0 : ℤ) : ℤ × ℤ × ℤ :=
  let jy := jy0 - 979
  let jm := jm0 - 1
  let jd := jd0 - 1
  gregOfDayNoZ (jDayCountZ jy + jMonthSumZ jm.toNat + jd + 79)

/-! ## ISO formatting and the sales-summary query (SalesReport.tsx 69-88, api.ts 508-518) -/

/-- JavaScript `String(n).padStart(2, '0')`. -/
def padStart2 (s : String) : String :=
  if s.length ≥ 2 then s else String.mk (List.replicate (2 - s.length) '0') ++ s

/-- Embedding of `toGregorianISO` (lines 69-76). -/
def toGregorianISO (s : String) : Option String :=
  match parseJalaliDateString s with
  | none => none
  | some (jy, jm, jd) =>
    let r := jalaliToGregorian (jy : ℤ) (jm : ℤ) (jd : ℤ)
    some (toString r.1 ++ "-" ++ padStart2 (toString r.2.1) ++ "-" ++ padStart2 (toString r.2.2))

/-- The call-site coercion `fromG || undefined`: an absent or empty string
becomes `undefined`. -/
def jsOrUndefined (v : Option String) : Option String :=
  match v with
  | some s => if s = "" then none else some s
  | none => none

/-- The `params` record built by `ApiService.getSalesSummary` (api.ts lines
508-512): a key is added only when the corresponding argument is present
and truthy. -/
def getSalesSummaryParams (fromArg toArg : Option String) : List (String × String) :=
  (match fromArg with
   | some f => if f = "" then [] else [("from", f)]
   | none => []) ++
  (match toArg with
   | some t => if t = "" then [] else [("to", t)]
   | none => [])

/-! ## Spec-side reference algorithm (spec section 4.1, nine steps) -/

/-- Spec step 6 as worded: the century-leap correction fires when the
remaining day count is at least 36524, and uses floor division. -/
def specCenturyZ (gy g : ℤ) : ℤ × ℤ × Bool :=
  if g ≥ 36524 then
    let g1 := g - 1
    let gy1 := gy + 100 * Int.fdiv g1 36524
    let g2 := Int.fmod g1 36524
    if g2 ≥ 365 then (gy1, g2 + 1, true) else (gy1, g2, false)
  else (gy, g, true)

/-- Spec step 8 with floor division. -/
def specYearStepZ (gy g : ℤ) (leap : Bool) : ℤ × ℤ × Bool :=
  if g ≥ 366 then (gy + Int.fdiv (g - 1) 365, Int.fmod (g - 1) 365, false) else (gy, g, leap)

/-- Spec steps 5 to 9. -/
def specGregOfDayNoZ (g0 : ℤ) : ℤ × ℤ × ℤ :=
  let gy0 := 1600 + 400 * Int.fdiv g0 146097
  let g1 := Int.fmod g0 146097
  let c := specCenturyZ gy0 g1
  let y := specYearStepZ (c.1 + 4 * Int.fdiv c.2.1 1461) (Int.fmod c.2.1 1461) c.2.2
  let w := monthWalkZ (gdMonthDaysZ y.2.2) y.2.1
  (y.1, (w.1 : ℤ) + 1, w.2 + 1)

/-- Spec step 2: `365*jy + floor(jy/33)*8 + floor(((jy mod 33) + 3)/4)`
with floor division and floor remainder. -/
def specDayCountZ (jy : ℤ) : ℤ :=
  365 * jy + Int.fdiv jy 33 * 8 + Int.fdiv (Int.fmod jy 33 + 3) 4

/-- The nine-step reference algorithm of spec section 4.1: rebase by 979,
day count with floor division, month days (six 31-day months then 30-day
months), epoch shift 79, then the Gregorian decode of steps 5 to 9. -/
def specJalaliToGregorian (jy0 jm0 jd0 : ℤ) : ℤ × ℤ × ℤ :=
  let jy := jy0 - 979
  let jm := jm0 - 1
  let jd := jd0 - 1
  specGregOfDayNoZ (specDayCountZ jy + jMonthSumZ jm.toNat + jd + 79)

/-! ## ℕ model of the converter (used for the correctness proofs) -/

/-- ℕ version of the century block of the code (threshold 36525). -/
def century (gy g : ℕ) : ℕ × ℕ × Bool :=
  if g ≥ 36525 then
    let g1 := g - 1
    let gy1 := gy + 100 * (g1 / 36524)
    let g2 := g1 % 36524
    if g2 ≥ 365 then (gy1, g2 + 1, true) else (gy1, g2, false)
  else (gy, g, true)

/-- ℕ version of the spec's century step (threshold 36524). -/
def specCenturyN (gy g : ℕ) : ℕ × ℕ × Bool :=
  if g ≥ 36524 then
    let g1 := g - 1
    let gy1 := gy + 100 * (g1 / 36524)
    let g2 := g1 % 36524
    if g2 ≥ 365 then (gy1, g2 + 1, true) else (gy1, g2, false)
  else (gy, g, true)

/-- ℕ version of the final single-year correction. -/
def yearStep (gy g : ℕ) (leap : Bool) : ℕ × ℕ × Bool :=
  if g ≥ 366 then (gy + (g - 1) / 365, (g - 1) % 365, false) else (gy, g, leap)

/-- ℕ month-length table. -/
def gdMonthDaysN (leap : Bool) : List ℕ :=
  [31, if leap then 29 else 28, 31, 30, 31, 30, 31, 31, 30, 31, 30, 31]

/-- ℕ month walk. -/
def monthWalkN : List ℕ → ℕ → ℕ × ℕ
  | [], g => (0, g)
  | d :: ds, g =>
    if g ≥ d then ((monthWalkN ds (g - d)).1 + 1, (monthWalkN ds (g - d)).2)
    else (0, g)

/-- Year offset within a 400-year cycle, day of year and leap flag decoded
from a day number already reduced modulo 146097. -/
def decode (r : ℕ) : ℕ × ℕ × Bool :=
  let c := century 0 r
  yearStep (c.1 + 4 * (c.2.1 / 1461)) (c.2.1 % 1461) c.2.2

/-- Month length according to the algorithm's leap flag. -/
def monthLen (leap : Bool) (m : ℕ) : ℕ := (gdMonthDaysN leap).getD (m - 1) 0

/-- ℕ day count (floor and truncating division agree on ℕ). -/
def jDayCountN (jy0 : ℕ) : ℕ := 365 * jy0 + jy0 / 33 * 8 + (jy0 % 33 + 3) / 4

/-- ℕ month sum. -/
def jMonthSumN : ℕ → ℕ
  | 0 => 0
  | i + 1 => jMonthSumN i + (if i < 6 then 31 else 30)

/-- ℕ Gregorian decode (code version). -/
def gregOfDayNo (n : ℕ) : ℕ × ℕ × ℕ :=
  let c := century (1600 + 400 * (n / 146097)) (n % 146097)
  let y := yearStep (c.1 + 4 * (c.2.1 / 1461)) (c.2.1 % 1461) c.2.2
  let w := monthWalkN (gdMonthDaysN y.2.2) y.2.1
  (y.1, w.1 + 1, w.2 + 1)

/-- ℕ Gregorian decode (spec version, threshold 36524). -/
def specGregOfDayNoN (n : ℕ) : ℕ × ℕ × ℕ :=
  let c := specCenturyN (1600 + 400 * (n / 146097)) (n % 146097)
  let y := yearStep (c.1 + 4 * (c.2.1 / 1461)) (c.2.1 % 1461) c.2.2
  let w := monthWalkN (gdMonthDaysN y.2.2) y.2.1
  (y.1, w.1 + 1, w.2 + 1)

/-- ℕ converter for Jalali years at least 979. -/
def jalaliToGregorianN (jy jm jd : ℕ) : ℕ × ℕ × ℕ :=
  gregOfDayNo (jDayCountN (jy - 979) + jMonthSumN (jm - 1) + (jd - 1) + 79)

/-! ## The Gregorian calendar itself (for validity statements) -/

/-- The standard Gregorian leap rule: divisible by 4 and not by 100, unless
divisible by 400. -/
def isGregLeap (y : ℕ) : Bool := (y % 4 == 0 && y % 100 != 0) || y % 400 == 0

/-- Days in a month of the Gregorian calendar. -/
def daysInMonth (y m : ℕ) : ℕ :=
  if m = 2 then (if isGregLeap y then 29 else 28)
  else if m = 4 ∨ m = 6 ∨ m = 9 ∨ m = 11 then 30 else 31

/-- A valid Gregorian calendar date. -/
def validGregorian (y m d : ℕ) : Prop :=
  1 ≤ m ∧ m ≤ 12 ∧ 1 ≤ d ∧ d ≤ daysInMonth y m

/-- Gregorian leap rule on ℤ. -/
def isGregLeapZ (y : ℤ) : Bool := (y % 4 == 0 && y % 100 != 0) || y % 400 == 0

/-- Days in a month, ℤ version. -/
def daysInMonthZ (y m : ℤ) : ℤ :=
  if m = 2 then (if isGregLeapZ y then 29 else 28)
  else if m = 4 ∨ m = 6 ∨ m = 9 ∨ m = 11 then 30 else 31

/-- A valid Gregorian calendar date, ℤ version. -/
def validGregorianZ (y m d : ℤ) : Prop :=
  1 ≤ m ∧ m ≤ 12 ∧ 1 ≤ d ∧ d ≤ daysInMonthZ y m

instance validGregorianDecidable (y m d : ℕ) : Decidable (validGregorian y m d) := by
  unfold validGregorian
  infer_instance

instance validGregorianZDecidable (y m d : ℤ) : Decidable (validGregorianZ y m d) := by
  unfold validGregorianZ
  infer_instance

/-- The calendar successor of a Gregorian date. -/
def nextGregorianDay (y m d : ℤ) : ℤ × ℤ × ℤ :=
  if d < daysInMonthZ y m then (y, m, d + 1)
  else if m < 12 then (y, m + 1, 1)
  else (y + 1, 1, 1)

/-! ## Spec-side parser pattern (spec section 4.2) -/

/-- The anchored pattern of spec section 4.2 as a decomposition: four
digits, a separator, one or two digits, a separator, one or two digits,
and nothing else. -/
def specPattern (cs g1 g2 g3 : List Char) (s1 s2 : Char) : Prop :=
  cs = g1 ++ s1 :: (g2 ++ s2 :: g3) ∧ g1.length = 4 ∧
  1 ≤ g2.length ∧ g2.length ≤ 2 ∧ 1 ≤ g3.length ∧ g3.length ≤ 2 ∧
  (∀ c ∈ g1, isLatinDigit c = true) ∧ (∀ c ∈ g2, isLatinDigit c = true) ∧
  (∀ c ∈ g3, isLatinDigit c = true) ∧ isSep s1 = true ∧ isSep s2 = true

instance specPatternDecidable (cs g1 g2 g3 : List Char) (s1 s2 : Char) :
    Decidable (specPattern cs g1 g2 g3 s1 s2) := by
  unfold specPattern
  infer_instance

/-! ## Digit-script and separator substitutions (for the invariance claims) -/

/-- Replace each Latin digit by the Persian-script digit of the same value. -/
def latinToPersian (c : Char) : Char :=
  if c = '0' then '۰' else if c = '1' then '۱' else if c = '2' then '۲'
  else if c = '3' then '۳' else if c = '4' then '۴' else if c = '5' then '۵'
  else if c = '6' then '۶' else if c = '7' then '۷' else if c = '8' then '۸'
  else if c = '9' then '۹' else c

/-- Replace the separator `/` by `-`. -/
def slashToDash (c : Char) : Char := if c = '/' then '-' else c

/-- Replace the separator `-` by `/`. -/
def dashToSlash (c : Char) : Char := if c = '-' then '/' else c

/-! ## Arithmetic facts about the ℕ model -/

lemma decode_spec (r : ℕ) (h : r < 146097) :
    (decode r).1 ≤ 399 ∧
    ((decode r).2.2 = true →
      (decode r).2.1 ≤ 365 ∧ (decode r).1 % 4 = 0 ∧ ((decode r).1 % 100 = 0 → (decode r).1 = 0)) ∧
    ((decode r).2.2 = false → (decode r).2.1 ≤ 364) := by
  by_cases h1 : r ≥ 36525
  · by_cases h2 : (r - 1) % 36524 ≥ 365
    · by_cases h3 : ((r - 1) % 36524 + 1) % 1461 ≥ 366
      · simp [decode, century, yearStep, h1, h2, h3]
        omega
      · simp [decode, century, yearStep, h1, h2, h3]
        omega
    · by_cases h3 : (r - 1) % 36524 % 1461 ≥ 366
      · simp [decode, century, yearStep, h1, h2, h3]
        omega
      · simp [decode, century, yearStep, h1, h2, h3]
        omega
  · by_cases h3 : r % 1461 ≥ 366
    · simp [decode, century, yearStep, h1, h3]
      omega
    · simp [decode, century, yearStep, h1, h3]
      omega

set_option maxRecDepth 8000 in
lemma monthWalk_valid : ∀ lp : Bool, ∀ d : ℕ, d < 365 + (if lp then 1 else 0) →
    (monthWalkN (gdMonthDaysN lp) d).1 < 12 ∧
    (monthWalkN (gdMonthDaysN lp) d).2 + 1 ≤ monthLen lp ((monthWalkN (gdMonthDaysN lp) d).1 + 1) := by
  decide

lemma century_shift (gy g : ℕ) :
    century gy g = (gy + (century 0 g).1, (century 0 g).2.1, (century 0 g).2.2) := by
  by_cases h1 : g ≥ 36525
  · by_cases h2 : (g - 1) % 36524 ≥ 365 <;> simp [century, h1, h2]
  · simp [century, h1]

lemma yearStep_shift (gy g : ℕ) (lp : Bool) :
    yearStep gy g lp = (gy + (yearStep 0 g lp).1, (yearStep 0 g lp).2.1, (yearStep 0 g lp).2.2) := by
  by_cases h1 : g ≥ 366 <;> simp [yearStep, h1]

lemma decodeFull (gy0 r : ℕ) :
    yearStep ((century gy0 r).1 + 4 * ((century gy0 r).2.1 / 1461))
        ((century gy0 r).2.1 % 1461) (century gy0 r).2.2 =
      (gy0 + (decode r).1, (decode r).2.1, (decode r).2.2) := by
  rw [century_shift]
  rw [yearStep_shift (gy0 + (century 0 r).1 + 4 * ((century 0 r).2.1 / 1461))]
  have hd : decode r =
      yearStep ((century 0 r).1 + 4 * ((century 0 r).2.1 / 1461))
        ((century 0 r).2.1 % 1461) (century 0 r).2.2 := rfl
  rw [hd, yearStep_shift ((century 0 r).1 + 4 * ((century 0 r).2.1 / 1461))]
  refine Prod.ext ?_ rfl
  simp only
  omega

lemma gregOfDayNo_decode (n : ℕ) :
    gregOfDayNo n =
      (1600 + 400 * (n / 146097) + (decode (n % 146097)).1,
       (monthWalkN (gdMonthDaysN (decode (n % 146097)).2.2) (decode (n % 146097)).2.1).1 + 1,
       (monthWalkN (gdMonthDaysN (decode (n % 146097)).2.2) (decode (n % 146097)).2.1).2 + 1) := by
  simp only [gregOfDayNo]
  rw [decodeFull]

lemma monthLen_le_daysInMonth (lp : Bool) (y m : ℕ) (h1 : 1 ≤ m) (h2 : m ≤ 12)
    (hlp : lp = true → isGregLeap y = true) : monthLen lp m ≤ daysInMonth y m := by
  cases lp
  · interval_cases m <;> simp [monthLen, daysInMonth, gdMonthDaysN] <;> split <;> simp
  · have := hlp rfl
    interval_cases m <;> simp [monthLen, daysInMonth, gdMonthDaysN, this]

lemma isGregLeap_of_decode (q dy : ℕ) (hdy : dy ≤ 399) (h4 : dy % 4 = 0)
    (h100 : dy % 100 = 0 → dy = 0) : isGregLeap (1600 + 400 * q + dy) = true := by
  simp only [isGregLeap, Bool.or_eq_true, Bool.and_eq_true, beq_iff_eq, bne_iff_ne, ne_eq,
    decide_eq_true_eq]
  omega

theorem gregOfDayNo_valid (n : ℕ) :
    validGregorian (gregOfDayNo n).1 (gregOfDayNo n).2.1 (gregOfDayNo n).2.2 := by
  have hrlt : n % 146097 < 146097 := Nat.mod_lt _ (by norm_num)
  have hds := decode_spec (n % 146097) hrlt
  rw [gregOfDayNo_decode]
  rcases hdec : decode (n % 146097) with ⟨dy, dd, lp⟩
  rw [hdec] at hds
  simp only at hds
  rcases hds with ⟨hb, ht, hf⟩
  have hdlt : dd < 365 + (if lp then 1 else 0) := by
    cases lp
    · have := hf rfl
      simp only [Bool.false_eq_true, if_false]
      omega
    · have := (ht rfl).1
      simp only [if_true]
      omega
  have hw := monthWalk_valid lp dd hdlt
  have hleap : lp = true → isGregLeap (1600 + 400 * (n / 146097) + dy) = true := by
    intro hl
    exact isGregLeap_of_decode _ _ hb (ht hl).2.1 (ht hl).2.2
  have hw1 := hw.1
  refine ⟨?_, ?_, ?_, ?_⟩ <;> dsimp only [validGregorian]
  · omega
  · omega
  · omega
  calc (monthWalkN (gdMonthDaysN lp) dd).2 + 1
      ≤ monthLen lp ((monthWalkN (gdMonthDaysN lp) dd).1 + 1) := hw.2
    _ ≤ daysInMonth (1600 + 400 * (n / 146097) + dy)
          ((monthWalkN (gdMonthDaysN lp) dd).1 + 1) := by
        exact monthLen_le_daysInMonth _ _ _ (by omega) (by omega) hleap

/-! ## Casting the ℤ embedding to the ℕ model (non-negative domain) -/

lemma toInt32_eq_self (x : ℤ) (h1 : -2147483648 ≤ x) (h2 : x < 2147483648) :
    toInt32 x = x := by
  unfold toInt32
  omega

lemma div_natCast (a b : ℕ) (h : a / b < 2147483648) :
    div (a : ℤ) (b : ℤ) = ((a / b : ℕ) : ℤ) := by
  have e : div (a : ℤ) (b : ℤ) = toInt32 ((a / b : ℕ) : ℤ) := rfl
  rw [e]
  exact toInt32_eq_self _ (le_trans (by norm_num) (Int.natCast_nonneg _))
    (by exact_mod_cast h)

lemma jsMod_natCast (a b : ℕ) : jsMod (a : ℤ) (b : ℤ) = ((a % b : ℕ) : ℤ) := rfl

lemma fdiv_natCast (a b : ℕ) : Int.fdiv (a : ℤ) (b : ℤ) = ((a / b : ℕ) : ℤ) :=
  (Int.ofNat_fdiv a b).symm

lemma fmod_natCast (a b : ℕ) : Int.fmod (a : ℤ) (b : ℤ) = ((a % b : ℕ) : ℤ) :=
  (Int.ofNat_fmod a b).symm

lemma jMonthSumZ_cast (k : ℕ) : jMonthSumZ k = ((jMonthSumN k : ℕ) : ℤ) := by
  induction k with
  | zero => rfl
  | succ i ih =>
    by_cases h : i < 6 <;> simp only [jMonthSumZ, jMonthSumN, h, if_true, if_false, ih] <;>
      push_cast <;> ring

lemma gdMonthDaysZ_map (lp : Bool) : gdMonthDaysZ lp = (gdMonthDaysN lp).map (fun d => (d : ℤ)) := by
  cases lp <;> rfl

lemma monthWalkZ_cast (ds : List ℕ) (g : ℕ) :
    monthWalkZ (ds.map (fun d => (d : ℤ))) (g : ℤ) =
      ((monthWalkN ds g).1, ((monthWalkN ds g).2 : ℤ)) := by
  induction ds generalizing g with
  | nil => simp [monthWalkZ, monthWalkN]
  | cons d ds ih =>
    have lhs : monthWalkZ ((d :: ds).map (fun d => (d : ℤ))) (g : ℤ) =
        if (g : ℤ) ≥ (d : ℤ) then
          ((monthWalkZ (ds.map (fun d => (d : ℤ))) ((g : ℤ) - (d : ℤ))).1 + 1,
            (monthWalkZ (ds.map (fun d => (d : ℤ))) ((g : ℤ) - (d : ℤ))).2)
        else (0, (g : ℤ)) := rfl
    have rhs : monthWalkN (d :: ds) g =
        if g ≥ d then ((monthWalkN ds (g - d)).1 + 1, (monthWalkN ds (g - d)).2)
        else (0, g) := rfl
    rw [lhs, rhs]
    by_cases h : g ≥ d
    · have hz : (g : ℤ) ≥ (d : ℤ) := by exact_mod_cast h
      have e : (g : ℤ) - (d : ℤ) = ((g - d : ℕ) : ℤ) := by omega
      rw [if_pos hz, if_pos h, e, ih]
    · have hz : ¬ (g : ℤ) ≥ (d : ℤ) := by exact_mod_cast h
      rw [if_neg hz, if_neg h]

lemma centuryZ_cast (gy g : ℕ) (hg : g < 146097) :
    centuryZ (gy : ℤ) (g : ℤ) =
      (((century gy g).1 : ℤ), ((century gy g).2.1 : ℤ), (century gy g).2.2) := by
  by_cases h1 : g ≥ 36525
  · have h1z : (g : ℤ) ≥ 36525 := by exact_mod_cast h1
    have e1 : (g : ℤ) - 1 = ((g - 1 : ℕ) : ℤ) := by omega
    have e2 : div ((g - 1 : ℕ) : ℤ) 36524 = (((g - 1) / 36524 : ℕ) : ℤ) :=
      div_natCast (g - 1) 36524 (by omega)
    have e3 : jsMod ((g - 1 : ℕ) : ℤ) 36524 = (((g - 1) % 36524 : ℕ) : ℤ) := rfl
    simp only [centuryZ, century, h1, h1z, if_true, e1, e2, e3]
    by_cases h2 : (g - 1) % 36524 ≥ 365
    · have h2z : (((g - 1) % 36524 : ℕ) : ℤ) ≥ 365 := by exact_mod_cast h2
      rw [if_pos h2z, if_pos h2]
      simp only [Prod.mk.injEq, eq_self_iff_true, and_true, true_and]
      omega
    · have h2z : ¬ (((g - 1) % 36524 : ℕ) : ℤ) ≥ 365 := by exact_mod_cast h2
      rw [if_neg h2z, if_neg h2]
      simp only [Prod.mk.injEq, eq_self_iff_true, and_true, true_and]
      omega
  · have h1z : ¬ (g : ℤ) ≥ 36525 := by exact_mod_cast h1
    simp only [centuryZ, century, h1, h1z, if_false]

lemma yearStepZ_cast (gy g : ℕ) (lp : Bool) (hg : g < 146097) :
    yearStepZ (gy : ℤ) (g : ℤ) lp =
      (((yearStep gy g lp).1 : ℤ), ((yearStep gy g lp).2.1 : ℤ), (yearStep gy g lp).2.2) := by
  by_cases h1 : g ≥ 366
  · have h1z : (g : ℤ) ≥ 366 := by exact_mod_cast h1
    have e1 : (g : ℤ) - 1 = ((g - 1 : ℕ) : ℤ) := by omega
    have e2 : div ((g - 1 : ℕ) : ℤ) 365 = (((g - 1) / 365 : ℕ) : ℤ) :=
      div_natCast (g - 1) 365 (by omega)
    have e3 : jsMod ((g - 1 : ℕ) : ℤ) 365 = (((g - 1) % 365 : ℕ) : ℤ) := rfl
    simp only [yearStepZ, yearStep, h1, h1z, if_true, e1, e2, e3]
    simp only [Prod.mk.injEq, eq_self_iff_true, and_true, true_and]
    omega
  · have h1z : ¬ (g : ℤ) ≥ 366 := by exact_mod_cast h1
    simp only [yearStepZ, yearStep, h1, h1z, if_false]

lemma century_snd_lt (gy g : ℕ) (hg : g < 146097) : (century gy g).2.1 < 146097 := by
  by_cases h1 : g ≥ 36525
  · by_cases h2 : (g - 1) % 36524 ≥ 365 <;> simp [century, h1, h2] <;> omega
  · simp [century, h1]
    omega

lemma gregOfDayNoZ_cast (n : ℕ) (hn : n / 146097 < 2147483648) :
    gregOfDayNoZ (n : ℤ) =
      (((gregOfDayNo n).1 : ℤ), ((gregOfDayNo n).2.1 : ℤ), ((gregOfDayNo n).2.2 : ℤ)) := by
  have hr : n % 146097 < 146097 := Nat.mod_lt _ (by norm_num)
  have hcg : (century (1600 + 400 * (n / 146097)) (n % 146097)).2.1 < 146097 :=
    century_snd_lt _ _ hr
  rcases hc : century (1600 + 400 * (n / 146097)) (n % 146097) with ⟨cy, cg, cl⟩
  rw [hc] at hcg
  dsimp only at hcg
  rcases hys : yearStep (cy + 4 * (cg / 1461)) (cg % 1461) cl with ⟨yy, yg, yl⟩
  rcases hw : monthWalkN (gdMonthDaysN yl) yg with ⟨wm, wg⟩
  have rhs : gregOfDayNo n = (yy, wm + 1, wg + 1) := by
    simp only [gregOfDayNo, hc, hys, hw]
  rw [rhs]
  simp only [gregOfDayNoZ]
  have e0 : div (n : ℤ) 146097 = ((n / 146097 : ℕ) : ℤ) := div_natCast n 146097 hn
  have e1 : jsMod (n : ℤ) 146097 = ((n % 146097 : ℕ) : ℤ) := rfl
  have e2 : (1600 : ℤ) + 400 * ((n / 146097 : ℕ) : ℤ) =
      ((1600 + 400 * (n / 146097) : ℕ) : ℤ) := by push_cast ; ring
  rw [e0, e1, e2, centuryZ_cast _ _ hr, hc]
  dsimp only
  have e5 : (cy : ℤ) + 4 * div (cg : ℤ) 1461 = ((cy + 4 * (cg / 1461) : ℕ) : ℤ) := by
    have e : div (cg : ℤ) 1461 = ((cg / 1461 : ℕ) : ℤ) := div_natCast cg 1461 (by omega)
    rw [e]; push_cast; ring
  have e6 : jsMod (cg : ℤ) 1461 = ((cg % 1461 : ℕ) : ℤ) := rfl
  rw [e5, e6, yearStepZ_cast _ _ _ (by omega), hys]
  dsimp only
  rw [gdMonthDaysZ_map, monthWalkZ_cast, hw]
  refine Prod.ext (by dsimp only) (Prod.ext (by dsimp only; push_cast; ring) (by dsimp only; push_cast; ring))

lemma jDayCountZ_cast (y : ℕ) (hy : y / 33 < 2147483648) :
    jDayCountZ (y : ℤ) = ((jDayCountN y : ℕ) : ℤ) := by
  have e1 : div (y : ℤ) 33 = ((y / 33 : ℕ) : ℤ) := div_natCast y 33 hy
  have e2 : jsMod (y : ℤ) 33 = ((y % 33 : ℕ) : ℤ) := rfl
  have e3 : ((y % 33 : ℕ) : ℤ) + 3 = ((y % 33 + 3 : ℕ) : ℤ) := by push_cast; ring
  have e4 : div ((y % 33 + 3 : ℕ) : ℤ) 4 = (((y % 33 + 3) / 4 : ℕ) : ℤ) :=
    div_natCast (y % 33 + 3) 4 (by omega)
  simp only [jDayCountZ, jDayCountN, e1, e2, e3, e4]
  push_cast
  ring

lemma jMonthSumN_le (k : ℕ) (h : k ≤ 11) : jMonthSumN k ≤ 336 := by
  interval_cases k <;> decide

theorem jalaliToGregorian_cast (jy jm jd : ℕ) (hy : 979 ≤ jy) (hy2 : jy < 70866961363)
    (hm : 1 ≤ jm) (hm2 : jm ≤ 12) (hd : 1 ≤ jd) (hd2 : jd ≤ 31) :
    jalaliToGregorian (jy : ℤ) (jm : ℤ) (jd : ℤ) =
      (((jalaliToGregorianN jy jm jd).1 : ℤ), ((jalaliToGregorianN jy jm jd).2.1 : ℤ),
        ((jalaliToGregorianN jy jm jd).2.2 : ℤ)) := by
  have ey : (jy : ℤ) - 979 = ((jy - 979 : ℕ) : ℤ) := by omega
  have em : ((jm : ℤ) - 1).toNat = jm - 1 := by omega
  have ed : (jd : ℤ) - 1 = ((jd - 1 : ℕ) : ℤ) := by omega
  have hdiv33 : (jy - 979) / 33 < 2147483648 := by omega
  have hms : jMonthSumN (jm - 1) ≤ 336 := jMonthSumN_le (jm - 1) (by omega)
  have hdc : jDayCountN (jy - 979) = 365 * (jy - 979) + (jy - 979) / 33 * 8 +
      ((jy - 979) % 33 + 3) / 4 := rfl
  have hn : (jDayCountN (jy - 979) + jMonthSumN (jm - 1) + (jd - 1) + 79) / 146097 <
      2147483648 := by omega
  have esum : ((jDayCountN (jy - 979) : ℕ) : ℤ) + ((jMonthSumN (jm - 1) : ℕ) : ℤ) +
      ((jd - 1 : ℕ) : ℤ) + 79 =
      ((jDayCountN (jy - 979) + jMonthSumN (jm - 1) + (jd - 1) + 79 : ℕ) : ℤ) := by
    push_cast; ring
  simp only [jalaliToGregorian, jalaliToGregorianN, ey, em, ed,
    jDayCountZ_cast _ hdiv33, jMonthSumZ_cast, esum, gregOfDayNoZ_cast _ hn]

/-! ## Casting the spec's floor-division algorithm to the ℕ model -/

lemma specCenturyZ_cast (gy g : ℕ) :
    specCenturyZ (gy : ℤ) (g : ℤ) =
      (((specCenturyN gy g).1 : ℤ), ((specCenturyN gy g).2.1 : ℤ), (specCenturyN gy g).2.2) := by
  by_cases h1 : g ≥ 36524
  · have h1z : (g : ℤ) ≥ 36524 := by exact_mod_cast h1
    have e1 : (g : ℤ) - 1 = ((g - 1 : ℕ) : ℤ) := by omega
    have e2 : Int.fdiv ((g - 1 : ℕ) : ℤ) 36524 = (((g - 1) / 36524 : ℕ) : ℤ) :=
      fdiv_natCast (g - 1) 36524
    have e3 : Int.fmod ((g - 1 : ℕ) : ℤ) 36524 = (((g - 1) % 36524 : ℕ) : ℤ) :=
      fmod_natCast (g - 1) 36524
    simp only [specCenturyZ, specCenturyN, h1, h1z, if_true, e1, e2, e3]
    by_cases h2 : (g - 1) % 36524 ≥ 365
    · have h2z : (((g - 1) % 36524 : ℕ) : ℤ) ≥ 365 := by exact_mod_cast h2
      rw [if_pos h2z, if_pos h2]
      simp only [Prod.mk.injEq, eq_self_iff_true, and_true, true_and]
      omega
    · have h2z : ¬ (((g - 1) % 36524 : ℕ) : ℤ) ≥ 365 := by exact_mod_cast h2
      rw [if_neg h2z, if_neg h2]
      simp only [Prod.mk.injEq, eq_self_iff_true, and_true, true_and]
      omega
  · have h1z : ¬ (g : ℤ) ≥ 36524 := by exact_mod_cast h1
    simp only [specCenturyZ, specCenturyN, h1, h1z, if_false]

lemma specYearStepZ_cast (gy g : ℕ) (lp : Bool) :
    specYearStepZ (gy : ℤ) (g : ℤ) lp =
      (((yearStep gy g lp).1 : ℤ), ((yearStep gy g lp).2.1 : ℤ), (yearStep gy g lp).2.2) := by
  by_cases h1 : g ≥ 366
  · have h1z : (g : ℤ) ≥ 366 := by exact_mod_cast h1
    have e1 : (g : ℤ) - 1 = ((g - 1 : ℕ) : ℤ) := by omega
    have e2 : Int.fdiv ((g - 1 : ℕ) : ℤ) 365 = (((g - 1) / 365 : ℕ) : ℤ) :=
      fdiv_natCast (g - 1) 365
    have e3 : Int.fmod ((g - 1 : ℕ) : ℤ) 365 = (((g - 1) % 365 : ℕ) : ℤ) :=
      fmod_natCast (g - 1) 365
    simp only [specYearStepZ, yearStep, h1, h1z, if_true, e1, e2, e3]
    simp only [Prod.mk.injEq, eq_self_iff_true, and_true, true_and]
    omega
  · have h1z : ¬ (g : ℤ) ≥ 366 := by exact_mod_cast h1
    simp only [specYearStepZ, yearStep, h1, h1z, if_false]

lemma specGregOfDayNoZ_cast (n : ℕ) :
    specGregOfDayNoZ (n : ℤ) =
      (((specGregOfDayNoN n).1 : ℤ), ((specGregOfDayNoN n).2.1 : ℤ),
        ((specGregOfDayNoN n).2.2 : ℤ)) := by
  rcases hc : specCenturyN (1600 + 400 * (n / 146097)) (n % 146097) with ⟨cy, cg, cl⟩
  rcases hys : yearStep (cy + 4 * (cg / 1461)) (cg % 1461) cl with ⟨yy, yg, yl⟩
  rcases hw : monthWalkN (gdMonthDaysN yl) yg with ⟨wm, wg⟩
  have rhs : specGregOfDayNoN n = (yy, wm + 1, wg + 1) := by
    simp only [specGregOfDayNoN, hc, hys, hw]
  rw [rhs]
  simp only [specGregOfDayNoZ]
  have e0 : Int.fdiv (n : ℤ) 146097 = ((n / 146097 : ℕ) : ℤ) := fdiv_natCast n 146097
  have e1 : Int.fmod (n : ℤ) 146097 = ((n % 146097 : ℕ) : ℤ) := fmod_natCast n 146097
  have e2 : (1600 : ℤ) + 400 * ((n / 146097 : ℕ) : ℤ) =
      ((1600 + 400 * (n / 146097) : ℕ) : ℤ) := by push_cast ; ring
  rw [e0, e1, e2, specCenturyZ_cast, hc]
  dsimp only
  have e5 : (cy : ℤ) + 4 * Int.fdiv (cg : ℤ) 1461 = ((cy + 4 * (cg / 1461) : ℕ) : ℤ) := by
    have e : Int.fdiv (cg : ℤ) 1461 = ((cg / 1461 : ℕ) : ℤ) := fdiv_natCast cg 1461
    rw [e]; push_cast; ring
  have e6 : Int.fmod (cg : ℤ) 1461 = ((cg % 1461 : ℕ) : ℤ) := fmod_natCast cg 1461
  rw [e5, e6, specYearStepZ_cast, hys]
  dsimp only
  rw [gdMonthDaysZ_map, monthWalkZ_cast, hw]
  refine Prod.ext (by dsimp only) (Prod.ext (by dsimp only; push_cast; ring) (by dsimp only; push_cast; ring))

lemma specDayCountZ_cast (y : ℕ) : specDayCountZ (y : ℤ) = ((jDayCountN y : ℕ) : ℤ) := by
  have e1 : Int.fdiv (y : ℤ) 33 = ((y / 33 : ℕ) : ℤ) := fdiv_natCast y 33
  have e2 : Int.fmod (y : ℤ) 33 = ((y % 33 : ℕ) : ℤ) := fmod_natCast y 33
  have e3 : ((y % 33 : ℕ) : ℤ) + 3 = ((y % 33 + 3 : ℕ) : ℤ) := by push_cast; ring
  have e4 : Int.fdiv ((y % 33 + 3 : ℕ) : ℤ) 4 = (((y % 33 + 3) / 4 : ℕ) : ℤ) :=
    fdiv_natCast (y % 33 + 3) 4
  simp only [specDayCountZ, jDayCountN, e1, e2, e3, e4]
  push_cast
  ring

/-- On ℕ inputs the spec's century step (threshold 36524) and the code's
century step (threshold 36525) are extensionally equal: at exactly 36524
the spec's branch decrements, adds zero centuries and then restores the
decremented day, landing in the same state the code reaches by skipping
the branch. -/
lemma specCenturyN_eq_century (gy g : ℕ) : specCenturyN gy g = century gy g := by
  by_cases h1 : g ≥ 36525
  · have h2 : g ≥ 36524 := by omega
    simp only [specCenturyN, century, h1, h2, if_true]
  · by_cases h2 : g ≥ 36524
    · have hg : g = 36524 := by omega
      subst hg
      norm_num [specCenturyN, century]
    · simp only [specCenturyN, century, h1, h2, if_false]

lemma specGregOfDayNoN_eq (n : ℕ) : specGregOfDayNoN n = gregOfDayNo n := by
  simp only [specGregOfDayNoN, gregOfDayNo, specCenturyN_eq_century]

theorem specJalaliToGregorian_cast (jy jm jd : ℕ) (hy : 979 ≤ jy) (hm : 1 ≤ jm)
    (hd : 1 ≤ jd) :
    specJalaliToGregorian (jy : ℤ) (jm : ℤ) (jd : ℤ) =
      (((jalaliToGregorianN jy jm jd).1 : ℤ), ((jalaliToGregorianN jy jm jd).2.1 : ℤ),
        ((jalaliToGregorianN jy jm jd).2.2 : ℤ)) := by
  have ey : (jy : ℤ) - 979 = ((jy - 979 : ℕ) : ℤ) := by omega
  have em : ((jm : ℤ) - 1).toNat = jm - 1 := by omega
  have ed : (jd : ℤ) - 1 = ((jd - 1 : ℕ) : ℤ) := by omega
  have esum : ((jDayCountN (jy - 979) : ℕ) : ℤ) + ((jMonthSumN (jm - 1) : ℕ) : ℤ) +
      ((jd - 1 : ℕ) : ℤ) + 79 =
      ((jDayCountN (jy - 979) + jMonthSumN (jm - 1) + (jd - 1) + 79 : ℕ) : ℤ) := by
    push_cast; ring
  simp only [specJalaliToGregorian, jalaliToGregorianN, ey, em, ed, specDayCountZ_cast,
    jMonthSumZ_cast, esum, specGregOfDayNoZ_cast, specGregOfDayNoN_eq]

/-! ## Relating the ℤ and ℕ formulations of Gregorian validity -/

lemma isGregLeapZ_cast (y : ℕ) : isGregLeapZ (y : ℤ) = isGregLeap y := by
  rw [Bool.eq_iff_iff]
  simp only [isGregLeapZ, isGregLeap, Bool.or_eq_true, Bool.and_eq_true, beq_iff_eq,
    bne_iff_ne, ne_eq]
  omega

lemma daysInMonthZ_cast (y m : ℕ) :
    daysInMonthZ (y : ℤ) (m : ℤ) = ((daysInMonth y m : ℕ) : ℤ) := by
  have e2 : ((m : ℤ) = 2) ↔ (m = 2) := by omega
  have e4 : ((m : ℤ) = 4 ∨ (m : ℤ) = 6 ∨ (m : ℤ) = 9 ∨ (m : ℤ) = 11) ↔
      (m = 4 ∨ m = 6 ∨ m = 9 ∨ m = 11) := by omega
  simp only [daysInMonthZ, daysInMonth, isGregLeapZ_cast, e2, e4]
  split_ifs <;> simp

lemma validGregorianZ_cast (y m d : ℕ) :
    validGregorianZ (y : ℤ) (m : ℤ) (d : ℤ) ↔ validGregorian y m d := by
  simp only [validGregorianZ, validGregorian, daysInMonthZ_cast]
  omega

/-! ## The deterministic matcher against the spec's pattern -/

lemma sep_not_digit (c : Char) (h : isSep c = true) : isLatinDigit c = false := by
  simp only [isSep, Bool.or_eq_true, decide_eq_true_eq] at h
  rcases h with h | h <;> subst h <;> decide

lemma matchField_some (l g r : List Char) (h : matchField l = some (g, r)) :
    l = g ++ r ∧ (∀ c ∈ g, isLatinDigit c = true) ∧ 1 ≤ g.length ∧ g.length ≤ 2 := by
  match l with
  | [] => simp [matchField] at h
  | [c1] =>
    by_cases h1 : isLatinDigit c1 = true
    · simp [matchField, h1] at h
      obtain ⟨hg, hr⟩ := h
      subst hg; subst hr
      refine ⟨by simp, by simpa using h1, by simp, by simp⟩
    · simp [matchField, h1] at h
  | c1 :: c2 :: rest =>
    by_cases h1 : isLatinDigit c1 = true
    · by_cases h2 : isLatinDigit c2 = true
      · simp [matchField, h1, h2] at h
        obtain ⟨hg, hr⟩ := h
        subst hg; subst hr
        refine ⟨by simp, ?_, by simp, by simp⟩
        intro c hc
        simp only [List.mem_cons, List.not_mem_nil, or_false] at hc
        rcases hc with hc | hc <;> subst hc <;> assumption
      · simp [matchField, h1, h2] at h
        obtain ⟨hg, hr⟩ := h
        subst hg; subst hr
        refine ⟨by simp, ?_, by simp, by simp⟩
        intro c hc
        simp only [List.mem_singleton] at hc
        subst hc; exact h1
    · simp [matchField, h1] at h

lemma matchField_complete (g r : List Char) (hd : ∀ c ∈ g, isLatinDigit c = true)
    (hcase : (g.length = 1 ∧ (r = [] ∨ ∀ c ∈ r.head?, isLatinDigit c = false)) ∨
      g.length = 2) :
    matchField (g ++ r) = some (g, r) := by
  rcases hcase with ⟨h1, hr⟩ | h2
  · match g, h1 with
    | [c1], _ =>
      have hc1 : isLatinDigit c1 = true := hd c1 (by simp)
      rcases hr with hr | hr
      · subst hr; simp [matchField, hc1]
      · match r, hr with
        | [], _ => simp [matchField, hc1]
        | c2 :: r2, hr =>
          have hc2 : isLatinDigit c2 = false := hr c2 (by simp)
          simp [matchField, hc1, hc2]
  · match g, h2 with
    | [c1, c2], _ =>
      have hc1 : isLatinDigit c1 = true := hd c1 (by simp)
      have hc2 : isLatinDigit c2 = true := hd c2 (by simp)
      simp [matchField, hc1, hc2]

lemma matchJalali_some (cs g1 g2 g3 : List Char)
    (h : matchJalali cs = some (g1, g2, g3)) :
    ∃ s1 s2, specPattern cs g1 g2 g3 s1 s2 := by
  match cs with
  | [] => simp [matchJalali] at h
  | [_] => simp [matchJalali] at h
  | [_, _] => simp [matchJalali] at h
  | [_, _, _] => simp [matchJalali] at h
  | [_, _, _, _] => simp [matchJalali] at h
  | c1 :: c2 :: c3 :: c4 :: s1 :: rest =>
    rw [matchJalali] at h
    by_cases hb : (isLatinDigit c1 && isLatinDigit c2 && isLatinDigit c3 && isLatinDigit c4 &&
        isSep s1) = true
    · rw [if_pos hb] at h
      simp only [Bool.and_eq_true] at hb
      obtain ⟨⟨⟨⟨hb1, hb2⟩, hb3⟩, hb4⟩, hb5⟩ := hb
      cases hf : matchField rest with
      | none => rw [hf] at h; cases h
      | some pr =>
        obtain ⟨gg2, rest2⟩ := pr
        rw [hf] at h
        cases rest2 with
        | nil => cases h
        | cons s2 rest3 =>
          dsimp only at h
          by_cases hs2 : isSep s2 = true
          · rw [if_pos hs2] at h
            cases hf3 : matchField rest3 with
            | none => rw [hf3] at h; cases h
            | some pr3 =>
              obtain ⟨gg3, rest4⟩ := pr3
              rw [hf3] at h
              cases rest4 with
              | nil =>
                simp only [Option.some.injEq, Prod.mk.injEq] at h
                obtain ⟨e1, e2, e3⟩ := h
                subst e1; subst e2; subst e3
                obtain ⟨l2, d2, m1, m2⟩ := matchField_some rest gg2 (s2 :: rest3) hf
                obtain ⟨l3, d3, n1, n2⟩ := matchField_some rest3 gg3 [] hf3
                refine ⟨s1, s2, ?_, rfl, m1, m2, n1, n2, ?_, d2, d3, hb5, hs2⟩
                · rw [l2, l3]
                  simp
                · intro c hc
                  simp at hc
                  rcases hc with hc | hc | hc | hc <;> subst hc <;> assumption
              | cons _ _ => cases h
          · rw [if_neg hs2] at h; cases h
    · rw [if_neg hb] at h; cases h

lemma matchJalali_complete (g1 g2 g3 : List Char) (s1 s2 : Char)
    (hp : specPattern (g1 ++ s1 :: (g2 ++ s2 :: g3)) g1 g2 g3 s1 s2) :
    matchJalali (g1 ++ s1 :: (g2 ++ s2 :: g3)) = some (g1, g2, g3) := by
  obtain ⟨_, hl1, hl2a, hl2b, hl3a, hl3b, hd1, hd2, hd3, hs1, hs2⟩ := hp
  match g1, hl1 with
  | [c1, c2, c3, c4], _ =>
    have hb : (isLatinDigit c1 && isLatinDigit c2 && isLatinDigit c3 && isLatinDigit c4 &&
        isSep s1) = true := by
      simp only [Bool.and_eq_true]
      exact ⟨⟨⟨⟨hd1 c1 (by simp), hd1 c2 (by simp)⟩, hd1 c3 (by simp)⟩, hd1 c4 (by simp)⟩, hs1⟩
    have hf2 : matchField (g2 ++ s2 :: g3) = some (g2, s2 :: g3) := by
      apply matchField_complete _ _ hd2
      rcases Nat.lt_or_ge g2.length 2 with h | h
      · left
        refine ⟨by omega, Or.inr ?_⟩
        intro c hc
        simp at hc
        subst hc
        exact sep_not_digit s2 hs2
      · right; omega
    have hf3 : matchField g3 = some (g3, []) := by
      have h0 : matchField (g3 ++ []) = some (g3, []) := by
        apply matchField_complete _ _ hd3
        rcases Nat.lt_or_ge g3.length 2 with h | h
        · left; exact ⟨by omega, Or.inl rfl⟩
        · right; omega
      simpa using h0
    show matchJalali (c1 :: c2 :: c3 :: c4 :: s1 :: (g2 ++ s2 :: g3)) = _
    rw [matchJalali, if_pos hb, hf2]
    dsimp only
    rw [if_pos hs2, hf3]

/-- The definition of the parser, unfolded to a form the proofs reuse. -/
lemma parse_eq (s : String) : parseJalaliDateString s =
    (match matchJalali (jsTrim ((s.data).map normalizeChar)) with
    | none => none
    | some (g1, g2, g3) =>
      if digitsToNat g2 < 1 ∨ digitsToNat g2 > 12 ∨ digitsToNat g3 < 1 ∨ digitsToNat g3 > 31
      then none
      else some (digitsToNat g1, digitsToNat g2, digitsToNat g3)) := rfl

/-- Completeness: a trimmed, normalized input that decomposes along the
spec pattern with in-range month and day parses to exactly that triple. -/
lemma parse_complete (s : String) (g1 g2 g3 : List Char) (s1 s2 : Char)
    (hp : specPattern (jsTrim ((s.data).map normalizeChar)) g1 g2 g3 s1 s2)
    (hm1 : 1 ≤ digitsToNat g2) (hm2 : digitsToNat g2 ≤ 12)
    (hd1 : 1 ≤ digitsToNat g3) (hd2 : digitsToNat g3 ≤ 31) :
    parseJalaliDateString s = some (digitsToNat g1, digitsToNat g2, digitsToNat g3) := by
  have hcs := hp.1
  rw [hcs] at hp
  have hmatch := matchJalali_complete g1 g2 g3 s1 s2 hp
  rw [parse_eq, hcs, hmatch]
  dsimp only
  rw [if_neg (by omega)]

/-! ## Character substitutions the parser cannot observe -/

lemma normalizeChar_latinToPersian (c : Char) :
    normalizeChar (latinToPersian c) = normalizeChar c := by
  unfold latinToPersian
  split_ifs <;> first | rfl | (subst_vars; decide)

lemma map_digits_id (f : Char → Char) (hid : ∀ c, isLatinDigit c = true → f c = c)
    (g : List Char) (hg : ∀ c ∈ g, isLatinDigit c = true) : g.map f = g := by
  induction g with
  | nil => rfl
  | cons c t ih =>
    simp only [List.map_cons, hid c (hg c (by simp))]
    rw [ih (fun x hx => hg x (by simp [hx]))]

lemma jsTrim_map (f : Char → Char)
    (hws : ∀ c, isJsWhitespace (f c) = isJsWhitespace c) (l : List Char) :
    jsTrim (l.map f) = (jsTrim l).map f := by
  have hfun : isJsWhitespace ∘ f = isJsWhitespace := funext hws
  unfold jsTrim
  rw [List.dropWhile_map, hfun, List.reverse_map, List.dropWhile_map, hfun, List.reverse_map]

lemma parse_map_of_norm_eq (f : Char → Char)
    (hn : ∀ c, normalizeChar (f c) = normalizeChar c) (s : String) :
    parseJalaliDateString (String.mk ((s.data).map f)) = parseJalaliDateString s := by
  rw [parse_eq, parse_eq]
  have key : ((String.mk ((s.data).map f)).data).map normalizeChar =
      (s.data).map normalizeChar := by
    show ((s.data).map f).map normalizeChar = _
    rw [List.map_map]
    exact List.map_congr_left (fun c _ => hn c)
  rw [key]

/-- A substitution that fixes digits, maps separators to separators,
preserves the whitespace classification and commutes with digit
normalization cannot change the parse of a well-formed input. -/
lemma parse_map_sep (f : Char → Char)
    (hid : ∀ c, isLatinDigit c = true → f c = c)
    (hsep : ∀ c, isSep c = true → isSep (f c) = true)
    (hws : ∀ c, isJsWhitespace (f c) = isJsWhitespace c)
    (hcomm : ∀ c, normalizeChar (f c) = f (normalizeChar c))
    (s : String) (g1 g2 g3 : List Char) (s1 s2 : Char)
    (hp : specPattern (jsTrim ((s.data).map normalizeChar)) g1 g2 g3 s1 s2) :
    parseJalaliDateString (String.mk ((s.data).map f)) = parseJalaliDateString s := by
  obtain ⟨hcs, hl1, hl2a, hl2b, hl3a, hl3b, hd1, hd2, hd3, hs1, hs2⟩ := hp
  have hcs' : jsTrim (((String.mk ((s.data).map f)).data).map normalizeChar) =
      (jsTrim ((s.data).map normalizeChar)).map f := by
    show jsTrim (((s.data).map f).map normalizeChar) = _
    rw [List.map_map]
    have e : (s.data).map (normalizeChar ∘ f) = ((s.data).map normalizeChar).map f := by
      rw [List.map_map]
      exact List.map_congr_left (fun c _ => hcomm c)
    rw [e, jsTrim_map f hws]
  have hmap : (jsTrim ((s.data).map normalizeChar)).map f =
      g1 ++ f s1 :: (g2 ++ f s2 :: g3) := by
    rw [hcs]
    simp only [List.map_append, List.map_cons]
    rw [map_digits_id f hid g1 hd1, map_digits_id f hid g2 hd2, map_digits_id f hid g3 hd3]
  have hp2 : specPattern (g1 ++ f s1 :: (g2 ++ f s2 :: g3)) g1 g2 g3 (f s1) (f s2) :=
    ⟨rfl, hl1, hl2a, hl2b, hl3a, hl3b, hd1, hd2, hd3, hsep s1 hs1, hsep s2 hs2⟩
  have hp1 : specPattern (g1 ++ s1 :: (g2 ++ s2 :: g3)) g1 g2 g3 s1 s2 :=
    ⟨rfl, hl1, hl2a, hl2b, hl3a, hl3b, hd1, hd2, hd3, hs1, hs2⟩
  rw [parse_eq, parse_eq, hcs', hmap, hcs,
    matchJalali_complete g1 g2 g3 (f s1) (f s2) hp2,
    matchJalali_complete g1 g2 g3 s1 s2 hp1]

lemma slashToDash_digit (c : Char) (h : isLatinDigit c = true) : slashToDash c = c := by
  unfold slashToDash
  rw [if_neg]
  intro he
  subst he
  exact absurd h (by decide)

lemma dashToSlash_digit (c : Char) (h : isLatinDigit c = true) : dashToSlash c = c := by
  unfold dashToSlash
  rw [if_neg]
  intro he
  subst he
  exact absurd h (by decide)

lemma slashToDash_sep (c : Char) (h : isSep c = true) : isSep (slashToDash c) = true := by
  simp only [isSep, Bool.or_eq_true, decide_eq_true_eq] at h
  rcases h with h | h <;> subst h <;> decide

lemma dashToSlash_sep (c : Char) (h : isSep c = true) : isSep (dashToSlash c) = true := by
  simp only [isSep, Bool.or_eq_true, decide_eq_true_eq] at h
  rcases h with h | h <;> subst h <;> decide

lemma slashToDash_ws (c : Char) : isJsWhitespace (slashToDash c) = isJsWhitespace c := by
  by_cases h : c = '/'
  · subst h; decide
  · unfold slashToDash; rw [if_neg h]

lemma dashToSlash_ws (c : Char) : isJsWhitespace (dashToSlash c) = isJsWhitespace c := by
  by_cases h : c = '-'
  · subst h; decide
  · unfold dashToSlash; rw [if_neg h]

set_option maxHeartbeats 1000000 in
lemma normalizeChar_comm_slashToDash (c : Char) :
    normalizeChar (slashToDash c) = slashToDash (normalizeChar c) := by
  by_cases h : c = '/'
  · subst h; decide
  · have hf : slashToDash c = c := by unfold slashToDash; rw [if_neg h]
    rw [hf]
    unfold normalizeChar
    split_ifs <;> first | decide | (unfold slashToDash; rw [if_neg h])

set_option maxHeartbeats 1000000 in
lemma normalizeChar_comm_dashToSlash (c : Char) :
    normalizeChar (dashToSlash c) = dashToSlash (normalizeChar c) := by
  by_cases h : c = '-'
  · subst h; decide
  · have hf : dashToSlash c = c := by unfold dashToSlash; rw [if_neg h]
    rw [hf]
    unfold normalizeChar
    split_ifs <;> first | decide | (unfold dashToSlash; rw [if_neg h])

/-! ## Claim theorems -/

/-- C1, counterexample: on the claimed domain (year ≥ 1) the code does not
compute the spec's algorithm. At Jalali (1, 1, 1) the rebased year is
negative; the spec's floor division gives (622, 3, 21) while the code's
truncation toward zero gives (624, 1, -648). -/
theorem c1_counterexample :
    specJalaliToGregorian 1 1 1 = (622, 3, 21) ∧
    jalaliToGregorian 1 1 1 = (624, 1, -648) ∧
    specJalaliToGregorian 1 1 1 ≠ jalaliToGregorian 1 1 1 := by
  decide

/-- C1, amended: for every Jalali input with year in [979, 70866961362]
(the range on which none of the source's 32-bit `(a / b) | 0` quotients
wraps: the largest is `div(jy - 979, 33)`, which stays below 2^31 exactly
up to that year), month in [1, 12] and day in [1, 31],
`jalaliToGregorian` computes exactly the 9-step reference algorithm of
spec section 4.1 (on this domain every intermediate quantity is
non-negative, so floor division coincides with the code's truncating
division, and the spec's ≥ 36524 century threshold is extensionally equal
to the code's ≥ 36525 one). -/
theorem c1_spec_equals_code (jy jm jd : ℤ) (hy : 979 ≤ jy) (hy2 : jy < 70866961363)
    (hm1 : 1 ≤ jm) (hm2 : jm ≤ 12) (hd1 : 1 ≤ jd) (hd2 : jd ≤ 31) :
    specJalaliToGregorian jy jm jd = jalaliToGregorian jy jm jd := by
  lift jy to ℕ using (by omega) with ny
  lift jm to ℕ using (by omega) with nm
  lift jd to ℕ using (by omega) with nd
  rw [specJalaliToGregorian_cast ny nm nd (by exact_mod_cast hy) (by exact_mod_cast hm1)
      (by exact_mod_cast hd1),
    jalaliToGregorian_cast ny nm nd (by exact_mod_cast hy) (by exact_mod_cast hy2)
      (by exact_mod_cast hm1) (by exact_mod_cast hm2) (by exact_mod_cast hd1)
      (by exact_mod_cast hd2)]

/-- C1 witness: the amended equivalence at Jalali 1403-01-01. -/
theorem c1_witness : specJalaliToGregorian 1403 1 1 = jalaliToGregorian 1403 1 1 :=
  c1_spec_equals_code 1403 1 1 (by decide) (by decide) (by decide) (by decide) (by decide)
    (by decide)

/-- C2, counterexample: at Jalali (1, 1, 1), inside the claimed domain
(year ≥ 1), the code returns (624, 1, -648), whose day is negative, so
the output is not a valid Gregorian date. -/
theorem c2_counterexample :
    jalaliToGregorian 1 1 1 = (624, 1, -648) ∧
    ¬ validGregorianZ (jalaliToGregorian 1 1 1).1 (jalaliToGregorian 1 1 1).2.1
        (jalaliToGregorian 1 1 1).2.2 := by
  decide

/-- C2, amended: for every Jalali input with year in [979, 70866961362]
(the range on which none of the source's 32-bit `(a / b) | 0` quotients
wraps), month in [1, 12] and day in [1, 31], the triple returned by
`jalaliToGregorian` is a valid Gregorian calendar date (month in [1, 12],
day in [1, daysInMonth(year, month)], leap years by the divisible-by-4 /
not-by-100-unless-by-400 rule). -/
theorem c2_output_valid (jy jm jd : ℤ) (hy : 979 ≤ jy) (hy2 : jy < 70866961363)
    (hm1 : 1 ≤ jm) (hm2 : jm ≤ 12) (hd1 : 1 ≤ jd) (hd2 : jd ≤ 31) :
    validGregorianZ (jalaliToGregorian jy jm jd).1 (jalaliToGregorian jy jm jd).2.1
      (jalaliToGregorian jy jm jd).2.2 := by
  lift jy to ℕ using (by omega) with ny
  lift jm to ℕ using (by omega) with nm
  lift jd to ℕ using (by omega) with nd
  rw [jalaliToGregorian_cast ny nm nd (by exact_mod_cast hy) (by exact_mod_cast hy2)
      (by exact_mod_cast hm1) (by exact_mod_cast hm2) (by exact_mod_cast hd1)
      (by exact_mod_cast hd2)]
  dsimp only
  exact (validGregorianZ_cast _ _ _).mpr (gregOfDayNo_valid _)

/-- C2 witness: the conversion of Jalali 1403-01-01 is a valid date. -/
theorem c2_witness :
    validGregorianZ (jalaliToGregorian 1403 1 1).1 (jalaliToGregorian 1403 1 1).2.1
      (jalaliToGregorian 1403 1 1).2.2 :=
  c2_output_valid 1403 1 1 (by decide) (by decide) (by decide) (by decide) (by decide)
    (by decide)

/-- C3: the two reference pairs of spec section 8 hold exactly:
Jalali 1403-01-01 maps to Gregorian 2024-03-20 and Jalali 1400-01-01 maps
to Gregorian 2021-03-21. -/
theorem c3_reference_pairs :
    jalaliToGregorian 1403 1 1 = (2024, 3, 20) ∧
    jalaliToGregorian 1400 1 1 = (2021, 3, 21) := by
  decide

/-- C6: Jalali 1403 is handled as a leap year: 1403-12-29 converts to
2025-03-19, day 30 of month 12 converts to the valid Gregorian date
2025-03-20, which is exactly the calendar successor of 2025-03-19. -/
theorem c6_leap_year_1403 :
    jalaliToGregorian 1403 12 29 = (2025, 3, 19) ∧
    jalaliToGregorian 1403 12 30 = (2025, 3, 20) ∧
    validGregorianZ 2025 3 20 ∧
    nextGregorianDay 2025 3 19 = (2025, 3, 20) := by
  decide

/-- C9: the conversion pipeline is deterministic: two invocations of
`jalaliToGregorian` (and of `toGregorianISO`) with identical arguments
return identical results; in this embedding both are pure functions of
their arguments alone. -/
theorem c9_determinism :
    (∀ jy jm jd : ℤ, jalaliToGregorian jy jm jd = jalaliToGregorian jy jm jd) ∧
    (∀ s : String, toGregorianISO s = toGregorianISO s) :=
  ⟨fun _ _ _ => rfl, fun _ => rfl⟩

/-- C10: the two separators are matched independently, so mixed-separator
inputs are accepted and parse to the same triple as the uniform ones. -/
theorem c10_mixed_separators :
    parseJalaliDateString "1403/01-01" = some (1403, 1, 1) ∧
    parseJalaliDateString "1403-01/01" = some (1403, 1, 1) ∧
    parseJalaliDateString "1403/01-01" = parseJalaliDateString "1403/01/01" := by
  decide

/-- C4: `toGregorianISO` returns no value exactly when the parser returns
null; otherwise it returns the Gregorian triple formatted as YYYY-MM-DD
with month and day zero-padded to two digits; and when the parser returns
null, the query parameters assembled by `getSalesSummary` contain no
`from` key at all. -/
theorem c4_toGregorianISO_contract : ∀ s : String,
    (toGregorianISO s = none ↔ parseJalaliDateString s = none) ∧
    (∀ y m d : ℕ, parseJalaliDateString s = some (y, m, d) →
      toGregorianISO s = some (toString (jalaliToGregorian (y : ℤ) (m : ℤ) (d : ℤ)).1 ++ "-" ++
        padStart2 (toString (jalaliToGregorian (y : ℤ) (m : ℤ) (d : ℤ)).2.1) ++ "-" ++
        padStart2 (toString (jalaliToGregorian (y : ℤ) (m : ℤ) (d : ℤ)).2.2))) ∧
    (parseJalaliDateString s = none → ∀ t : Option String,
      ∀ p ∈ getSalesSummaryParams (jsOrUndefined (toGregorianISO s)) t, p.1 ≠ "from") := by
  intro s
  refine ⟨?_, ?_, ?_⟩
  · cases hp : parseJalaliDateString s with
    | none => simp [toGregorianISO, hp]
    | some tr =>
      obtain ⟨y, m, d⟩ := tr
      simp [toGregorianISO, hp]
  · intro y m d hp
    simp [toGregorianISO, hp]
  · intro hp t p hmem
    have hnone : toGregorianISO s = none := by simp [toGregorianISO, hp]
    rw [hnone] at hmem
    cases t with
    | none => simp [getSalesSummaryParams, jsOrUndefined] at hmem
    | some tv =>
      by_cases htv : tv = ""
      · subst htv
        simp [getSalesSummaryParams, jsOrUndefined] at hmem
      · simp [getSalesSummaryParams, jsOrUndefined, htv] at hmem
        subst hmem
        dsimp only
        decide

/-- C4 witness: on "garbage" the composition yields no value and the query
parameters carry no `from` bound; on a valid input the formatted string is
produced. -/
theorem c4_witness :
    toGregorianISO "garbage" = none ∧
    toGregorianISO "1403/01/01" = some "2024-03-20" ∧
    (∀ p ∈ getSalesSummaryParams (jsOrUndefined (toGregorianISO "garbage")) (some "2025-01-01"),
      p.1 ≠ "from") := by
  have h := c4_toGregorianISO_contract "garbage"
  have h2 := c4_toGregorianISO_contract "1403/01/01"
  refine ⟨(h.1).mpr (by decide), ?_, ?_⟩
  · have he := h2.2.1 1403 1 1 (by decide)
    rw [he]
    decide
  · exact h.2.2 (by decide) (some "2025-01-01")

/-- C5: the parser returns null exactly when the trimmed, digit-normalized
input fails the anchored 4-digits/sep/1-2-digits/sep/1-2-digits pattern or
the parsed month is outside [1, 12] or the parsed day is outside [1, 31];
otherwise it returns the triple of parsed integers; and the three spec
examples "", "not-a-date" and "2024/13/01" all return null. -/
theorem c5_parser_contract : ∀ s : String,
    (parseJalaliDateString s = none ↔
      ¬ ∃ g1 g2 g3 s1 s2, specPattern (jsTrim ((s.data).map normalizeChar)) g1 g2 g3 s1 s2 ∧
        1 ≤ digitsToNat g2 ∧ digitsToNat g2 ≤ 12 ∧ 1 ≤ digitsToNat g3 ∧ digitsToNat g3 ≤ 31) ∧
    (∀ g1 g2 g3 s1 s2, specPattern (jsTrim ((s.data).map normalizeChar)) g1 g2 g3 s1 s2 →
      1 ≤ digitsToNat g2 → digitsToNat g2 ≤ 12 → 1 ≤ digitsToNat g3 → digitsToNat g3 ≤ 31 →
      parseJalaliDateString s = some (digitsToNat g1, digitsToNat g2, digitsToNat g3)) ∧
    parseJalaliDateString "" = none ∧
    parseJalaliDateString "not-a-date" = none ∧
    parseJalaliDateString "2024/13/01" = none := by
  intro s
  refine ⟨⟨?_, ?_⟩, ?_, by decide, by decide, by decide⟩
  · intro hnone
    rintro ⟨g1, g2, g3, s1, s2, hp, r1, r2, r3, r4⟩
    have hsome := parse_complete s g1 g2 g3 s1 s2 hp r1 r2 r3 r4
    rw [hnone] at hsome
    cases hsome
  · intro hne
    cases hm : matchJalali (jsTrim ((s.data).map normalizeChar)) with
    | none => rw [parse_eq, hm]
    | some tr =>
      obtain ⟨g1, g2, g3⟩ := tr
      obtain ⟨s1, s2, hp⟩ := matchJalali_some _ g1 g2 g3 hm
      by_cases hr : digitsToNat g2 < 1 ∨ digitsToNat g2 > 12 ∨ digitsToNat g3 < 1 ∨
          digitsToNat g3 > 31
      · rw [parse_eq, hm]
        dsimp only
        rw [if_pos hr]
      · exfalso
        exact hne ⟨g1, g2, g3, s1, s2, hp, by omega, by omega, by omega, by omega⟩
  · intro g1 g2 g3 s1 s2 hp r1 r2 r3 r4
    exact parse_complete s g1 g2 g3 s1 s2 hp r1 r2 r3 r4

/-- C5 witness: the contract applied at a concrete well-formed input and at
the spec's month-13 example. -/
theorem c5_witness :
    parseJalaliDateString "1403/01/01" = some (1403, 1, 1) ∧
    parseJalaliDateString "2024/13/01" = none := by
  have h := c5_parser_contract "1403/01/01"
  have h2 := c5_parser_contract "2024/13/01"
  constructor
  · have he := h.2.1 ['1', '4', '0', '3'] ['0', '1'] ['0', '1'] '/' '/' (by decide)
      (by decide) (by decide) (by decide) (by decide)
    rw [he]
    decide
  · exact h2.2.2.2.2

/-- C7: replacing each Latin digit of the input by the Persian-script digit
of the same value never changes the parse result, and the two concrete
spec examples agree. -/
theorem c7_persian_digit_invariance :
    (∀ s : String, parseJalaliDateString (String.mk ((s.data).map latinToPersian)) =
      parseJalaliDateString s) ∧
    parseJalaliDateString "۱۴۰۳/۰۱/۰۱" = parseJalaliDateString "1403/01/01" ∧
    parseJalaliDateString "1403/01/01" = some (1403, 1, 1) := by
  refine ⟨?_, by decide, by decide⟩
  intro s
  exact parse_map_of_norm_eq latinToPersian normalizeChar_latinToPersian s

/-- C8: for a well-formed date string, replacing the separator `/` by `-`
(or `-` by `/`, respectively) everywhere does not change the parse result;
in particular "1403-01-01" and "1403/01/01" parse identically. -/
theorem c8_separator_invariance :
    (∀ (s : String) (g1 g2 g3 : List Char) (s1 s2 : Char),
      specPattern (jsTrim ((s.data).map normalizeChar)) g1 g2 g3 s1 s2 →
      parseJalaliDateString (String.mk ((s.data).map slashToDash)) = parseJalaliDateString s ∧
      parseJalaliDateString (String.mk ((s.data).map dashToSlash)) = parseJalaliDateString s) ∧
    parseJalaliDateString "1403-01-01" = parseJalaliDateString "1403/01/01" ∧
    parseJalaliDateString "1403/01/01" = some (1403, 1, 1) := by
  refine ⟨?_, by decide, by decide⟩
  intro s g1 g2 g3 s1 s2 hp
  exact ⟨parse_map_sep slashToDash slashToDash_digit slashToDash_sep slashToDash_ws
      normalizeChar_comm_slashToDash s g1 g2 g3 s1 s2 hp,
    parse_map_sep dashToSlash dashToSlash_digit dashToSlash_sep dashToSlash_ws
      normalizeChar_comm_dashToSlash s g1 g2 g3 s1 s2 hp⟩

/-- C8 witness: the invariance applied to the concrete well-formed input
"1403/01/01". -/
theorem c8_witness :
    parseJalaliDateString (String.mk ((("1403/01/01" : String).data).map slashToDash)) =
      parseJalaliDateString "1403/01/01" :=
  (c8_separator_invariance.1 "1403/01/01" ['1', '4', '0', '3'] ['0', '1'] ['0', '1'] '/' '/'
    (by decide)).1
